import Mathlib

/-!
Verification development for batch_runner.py.

Strings are embedded as lists of characters.  The string layer models
Python str.strip, str.startswith, the "or" fallback on strings,
str.replace with an empty replacement, and the re.sub call used by
sanitize_path.  The discovery layer models find_cookbook_roots over a
materialized tree given as a list of (relative path, is-directory)
entries.  The runner layer models per-cookbook dispatch, process_repo,
the _work exception boundary, and the manifest/errors routing loop of
main.
-/

set_option maxHeartbeats 1000000

set_option linter.unnecessarySeqFocus false

abbrev Str := List Char

/-- ASCII whitespace stripped by Python str.strip(). -/
def pyIsSpace (c : Char) : Bool :=
  c = ' ' || c = '\t' || c = '\n' || c = '\r' || c = '\x0b' || c = '\x0c'

/-- Python str.strip(): drop leading and trailing whitespace. -/
def pyStrip (s : Str) : Str :=
  ((s.dropWhile pyIsSpace).reverse.dropWhile pyIsSpace).reverse

/-- Python "a or b" on strings: b when a is empty (falsy), else a. -/
def pyOr (a b : Str) : Str := if a = [] then b else a

/-- Python s.replace(pat, "") scanning left to right, structured on a fuel
argument so the definition is structurally recursive; one unit of fuel is
spent per character of s, so fuel s.length is always enough.  An empty
pattern removes nothing. -/
def replaceAllFuel (pat : Str) : Nat → Str → Str
  | _, [] => []
  | 0, s => s
  | fuel + 1, c :: rest =>
    if pat.isPrefixOf (c :: rest) ∧ 0 < pat.length then
      replaceAllFuel pat fuel (rest.drop (pat.length - 1))
    else
      c :: replaceAllFuel pat fuel rest

/-- Python s.replace(pat, ""): remove every non-overlapping occurrence of
pat, scanning left to right. -/
def replaceAllGo (pat : Str) (s : Str) : Str :=
  replaceAllFuel pat s.length s

/-- Character class [A-Za-z0-9._/@:-] of the re.sub call in sanitize_path. -/
def charClass (c : Char) : Bool :=
  ('A' ≤ c && c ≤ 'Z') || ('a' ≤ c && c ≤ 'z') || ('0' ≤ c && c ≤ '9') ||
    c = '.' || c = '_' || c = '/' || c = '@' || c = ':' || c = '-'

/-- Maximal-run replacement on a fuel argument so the recursion is
structural; one unit of fuel is spent per character, so fuel s.length is
always enough. -/
def squashFuel : Nat → Str → Str
  | _, [] => []
  | 0, s => s
  | fuel + 1, c :: rest =>
    if charClass c then c :: squashFuel fuel rest
    else '_' :: squashFuel fuel (rest.dropWhile (fun d => !charClass d))

/-- Model of re.sub(r"[^A-Za-z0-9._/@:-]+", "_", s): each maximal run of
characters outside the class becomes a single underscore. -/
def squashBad (s : Str) : Str :=
  squashFuel s.length s

/-- Scheme stripping of sanitize_path: s.replace("https://", "") followed by
.replace("http://", ""). -/
def stripSchemes (s : Str) : Str :=
  replaceAllGo "http://".toList (replaceAllGo "https://".toList s)

/-- Embedding of sanitize_path from batch_runner.py. -/
def sanitize_path (s : Str) : Str :=
  squashBad (stripSchemes s)

/-- Run collapsing written as a left-to-right scan with a flag recording
whether the previous character fell outside the class (used to state the
amended form of the sanitization claim). -/
def collapseRuns (prevBad : Bool) (s : Str) : Str :=
  match s with
  | [] => []
  | c :: rest =>
    if charClass c then c :: collapseRuns false rest
    else if prevBad then collapseRuns true rest
    else '_' :: collapseRuns true rest

/-- Sanitization as literally worded by the specification sentence behind
claim C9: scheme occurrences stripped, then every individual character
outside the class replaced with one underscore. -/
def sanitizeSpecPerChar (s : Str) : Str :=
  (stripSchemes s).map (fun c => if charClass c then c else '_')

/-- Sanitization under the amended wording: scheme occurrences stripped,
then every maximal run of characters outside the class replaced with a
single underscore. -/
def sanitizeSpecRuns (s : Str) : Str :=
  collapseRuns false (stripSchemes s)

abbrev Comp := List Char

abbrev FsPath := List Comp

/-- Materialized tree: each entry is a path, as components relative to the
repository root, together with whether the entry is a directory. -/
abbrev FsTree := List (FsPath × Bool)

def mdComp : Comp := "metadata.rb".toList

def recipesComp : Comp := "recipes".toList

def resourcesComp : Comp := "resources".toList

/-- pathlib Path.exists(): true when any entry, file or directory, sits at
this path. -/
def pexists (t : FsTree) (q : FsPath) : Bool :=
  t.any (fun e => e.1 == q)

/-- rglob("metadata.rb") matches surviving the depth guard of
find_cookbook_roots: entries whose final component is metadata.rb and whose
relative component count (the marker component included) is at most
maxDepth. -/
def consideredMarkers (t : FsTree) (maxDepth : Nat) : List FsPath :=
  (t.filter (fun e => e.1.getLast? == some mdComp && decide (e.1.length ≤ maxDepth))).map (·.1)

/-- Guard of find_cookbook_roots on the marker's parent: an entry named
recipes or resources exists there (of any kind, exactly as Path.exists
tests in the source). -/
def subdirOk (t : FsTree) (base : FsPath) : Bool :=
  pexists t (base ++ [recipesComp]) || pexists t (base ++ [resourcesComp])

/-- Roots accumulated by the loop of find_cookbook_roots before dedup and
sorting: parents of considered markers whose parent passes the guard. -/
def rootsRaw (t : FsTree) (maxDepth : Nat) : List FsPath :=
  ((consideredMarkers t maxDepth).filter (fun p => subdirOk t p.dropLast)).map (·.dropLast)

/-- Posix rendering of a relative path, "." for the empty path, matching
str() of a relative pathlib path. -/
def posixOf (p : FsPath) : Str :=
  if p = [] then ['.'] else List.intercalate ['/'] p

/-- Tail of the absolute posix string that varies with the root: empty for
the repository directory itself, otherwise a slash followed by the joined
components.  All absolute posix strings share the repository directory as
a common leading segment, so comparing tails by (length, lexicographic)
agrees with comparing the absolute strings. -/
def posixTail (p : FsPath) : Str :=
  if p = [] then [] else '/' :: List.intercalate ['/'] p

/-- Lexicographic comparison of character lists by code point. -/
def strLe : Str → Str → Bool
  | [], _ => true
  | _ :: _, [] => false
  | a :: as, b :: bs =>
    decide (a.toNat < b.toNat) || (decide (a.toNat = b.toNat) && strLe as bs)

/-- Sort key of find_cookbook_roots: primarily string length, secondarily
lexicographic. -/
def keyLe (a b : Str) : Bool :=
  decide (a.length < b.length) || (decide (a.length = b.length) && strLe a b)

/-- Ordering on candidate roots induced by the sort key. -/
def pathLe (x y : FsPath) : Prop :=
  keyLe (posixTail x) (posixTail y) = true

instance : DecidableRel pathLe := fun _ _ => instDecidableEqBool _ _

/-- Embedding of find_cookbook_roots: collect candidates, deduplicate, and
sort by the (length, lexicographic) key. -/
def find_cookbook_roots (t : FsTree) (maxDepth : Nat) : List FsPath :=
  List.insertionSort pathLe (rootsRaw t maxDepth).dedup

/-- Behavior of one external subprocess invocation: either it exits with a
return code and captured streams, or it hits the timeout. -/
inductive ProcResult where
  | exited (rc : Int) (out err : Str)
  | timedOut (out err : Str)
deriving DecidableEq

/-- Embedding of run(): a timed-out process is killed and surfaces as
return code 124 with "TimeoutExpired" substituted for an empty stderr. -/
def runModel (pr : ProcResult) : Int × Str × Str :=
  match pr with
  | .exited rc o e => (rc, o, e)
  | .timedOut o e => (124, o, pyOr e "TimeoutExpired".toList)

/-- Embedding of extract_cookbook: non-zero return code is failure with
stderr-or-stdout as detail, zero is success with stdout as detail. -/
def extract_cookbook (pr : ProcResult) : Bool × Str :=
  let r := runModel pr
  if r.1 ≠ 0 then (false, pyOr r.2.2 r.2.1) else (true, r.2.1)

inductive RepoStatus where
  | done
  | no_cookbooks
  | clone_error
  | fatal_error
deriving DecidableEq

inductive CkStatus where
  | ok
  | skipped
  | extract_error
  | dry_run
deriving DecidableEq

/-- Per-cookbook entry of the manifest record. -/
structure CkResult where
  cookbook : Str
  status : CkStatus
  out : Option Str
  detail : Option Str
deriving DecidableEq

/-- Per-repository record appended to manifest.jsonl or errors.jsonl
(elapsed seconds omitted: wall-clock time is outside the embedding). -/
structure RepoOutcome where
  repo : Str
  status : RepoStatus
  commit : Option Str := none
  cookbooks : Option (List CkResult) := none
  error : Option Str := none
deriving DecidableEq

/-- Environment one repository's pipeline runs against: the result of
git_shallow_clone, the materialized tree, the output-file existence state,
and the extractor subprocess behavior keyed by cookbook relative path. -/
structure RepoEnv where
  cloneResult : Except Str Str
  tree : FsTree
  outExists : Str → Bool
  extractProc : Str → ProcResult

/-- Deterministic output path out_dir/<sanitized url>/<commit>/<rel>.json. -/
def outFileFor (outDir url commit rel : Str) : Str :=
  outDir ++ ['/'] ++ sanitize_path url ++ ['/'] ++ commit ++ ['/'] ++ rel ++ ".json".toList

/-- Body of the per-cookbook loop of process_repo for one root: the manifest
entry produced, paired with whether the extractor was invoked. -/
def dispatchUnit (outDir url commit : Str) (overwrite dryRun : Bool) (env : RepoEnv)
    (root : FsPath) : CkResult × Bool :=
  let rel := posixOf root
  let outF := outFileFor outDir url commit rel
  if dryRun then
    ({ cookbook := rel, status := .dry_run, out := none, detail := none }, false)
  else if env.outExists outF && !overwrite then
    ({ cookbook := rel, status := .skipped, out := some outF, detail := none }, false)
  else
    let r := extract_cookbook (env.extractProc rel)
    ({ cookbook := rel, status := if r.1 then .ok else .extract_error,
       out := some outF, detail := some ((pyStrip r.2).take 4000) }, true)

/-- Embedding of process_repo: clone, discover with the default depth bound
of 6, dispatch each cookbook in discovery order.  Returns the outcome
record together with the relative paths of the cookbooks for which the
extractor was actually invoked. -/
def process_repo (url outDir : Str) (overwrite dryRun : Bool) (env : RepoEnv) :
    RepoOutcome × List Str :=
  match env.cloneResult with
  | .error e =>
    ({ repo := url, status := .clone_error, error := some e }, [])
  | .ok commit =>
    let roots := find_cookbook_roots env.tree 6
    if roots.isEmpty then
      ({ repo := url, status := .no_cookbooks, commit := some commit }, [])
    else
      let pairs := roots.map (dispatchUnit outDir url commit overwrite dryRun env)
      ({ repo := url, status := .done, commit := some commit,
         cookbooks := some (pairs.map (·.1)) },
       (pairs.filter (·.2)).map (fun pr => pr.1.cookbook))

/-- Embedding of the _work wrapper: a pipeline either completes against an
environment or raises, and a raised exception is converted at this boundary
into a fatal_error outcome instead of propagating. -/
def work (envOf : Str → Except Str RepoEnv) (outDir : Str) (overwrite dryRun : Bool)
    (url : Str) : RepoOutcome :=
  match envOf url with
  | .error e => { repo := url, status := .fatal_error, error := some e }
  | .ok env => (process_repo url outDir overwrite dryRun env).1

/-- Routing test of the main loop: statuses fatal_error and clone_error go
to errors.jsonl, everything else to manifest.jsonl. -/
def routeToErrors (r : RepoOutcome) : Bool :=
  decide (r.status = .fatal_error) || decide (r.status = .clone_error)

/-- Main result loop: append each completed outcome to exactly one of the
two logs, in completion order.  The pair is (errors.jsonl, manifest.jsonl). -/
def mainSink (outs : List RepoOutcome) : List RepoOutcome × List RepoOutcome :=
  outs.foldl
    (fun acc r => if routeToErrors r then (acc.1 ++ [r], acc.2) else (acc.1, acc.2 ++ [r]))
    ([], [])

/-- Whole batch: run the worker over every submitted URL and route every
outcome into the two logs. -/
def runBatch (envOf : Str → Except Str RepoEnv) (outDir : Str) (overwrite dryRun : Bool)
    (urls : List Str) : List RepoOutcome × List RepoOutcome :=
  mainSink (urls.map (work envOf outDir overwrite dryRun))

/-- Repos-file parsing loop of main(): strip each line, skip empty and
comment lines, keep the rest in file order. -/
def buildRepos : List Str → List Str
  | [] => []
  | line :: rest =>
    let s := pyStrip line
    if s = [] ∨ "#".toList.isPrefixOf s then buildRepos rest
    else s :: buildRepos rest

/-- Python l[:n] for an integer n, including the negative case. -/
def pySliceTo (l : List Str) (n : Int) : List Str :=
  if 0 ≤ n then l.take n.toNat else l.take (l.length - (-n).toNat)

/-- Limit application of main(): truncate only when the limit is truthy and
the list is longer than the limit. -/
def applyLimit (limit : Int) (repos : List Str) : List Str :=
  if limit ≠ 0 ∧ limit < (repos.length : Int) then pySliceTo repos limit else repos

/-- Line filter as worded by claim C10: stripped lines, with blank lines
and lines starting with '#' removed, in file order. -/
def specRepoLines (lines : List Str) : List Str :=
  (lines.map pyStrip).filter (fun s => !(s.isEmpty || "#".toList.isPrefixOf s))

/-- Occurrence test: pat appears as a contiguous substring of s. -/
def occursIn (pat : Str) : Str → Bool
  | [] => pat.isEmpty
  | c :: rest => pat.isPrefixOf (c :: rest) || occursIn pat rest

/-- Paths whose artifact the analysis collaborator wrote during a run that
produced this outcome: the out path of every cookbook that ended ok. -/
def writtenBy (out1 : RepoOutcome) (p : Str) : Bool :=
  (out1.cookbooks.getD []).any (fun c => c.status == CkStatus.ok && c.out == some p)

/-- Environment seen by a second run over unchanged repository state: the
same clone result and tree, with the artifacts of the first run now
present on disk. -/
def envAfter (env : RepoEnv) (out1 : RepoOutcome) : RepoEnv :=
  { env with outExists := fun p => env.outExists p || writtenBy out1 p }

/-- Unit-root predicate as literally worded by claim C3: the directory
directly contains the marker file metadata.rb (a file) and at least one of
the marker sub-directories recipes/ or resources/ (directories). -/
def unitRootSpecC3 (t : FsTree) (base : FsPath) : Prop :=
  (base ++ [mdComp], false) ∈ t ∧
    ((base ++ [recipesComp], true) ∈ t ∨ (base ++ [resourcesComp], true) ∈ t)

/-- Tree refuting claim C3: directory a holds metadata.rb and an entry
named recipes that is a plain file, not a directory. -/
def c3Tree : FsTree :=
  [ (["a".toList], true),
    (["a".toList, "metadata.rb".toList], false),
    (["a".toList, "recipes".toList], false) ]

/-- Directory path a/b/c/d/e/f at directory depth six. -/
def c4DeepDir : FsPath :=
  ["a".toList, "b".toList, "c".toList, "d".toList, "e".toList, "f".toList]

/-- Tree refuting claim C4: a fully qualifying cookbook whose metadata.rb
sits at directory depth exactly six, the default maximum. -/
def c4Tree : FsTree :=
  (List.range 6).map (fun i => (c4DeepDir.take (i + 1), true)) ++
    [ (c4DeepDir ++ [mdComp], false),
      (c4DeepDir ++ [recipesComp], true) ]




/-- Tree with a single qualifying cookbook at directory a, used by the
concrete witnesses. -/
def oneCookbookTree : FsTree :=
  [ (["a".toList], true),
    (["a".toList, mdComp], false),
    (["a".toList, recipesComp], true) ]

/-- Witness environment whose single cookbook's output already exists. -/
def c2Env : RepoEnv :=
  { cloneResult := .ok "c0".toList, tree := oneCookbookTree,
    outExists := fun _ => true, extractProc := fun _ => .exited 0 [] [] }

/-- Witness environment whose extractor always exits with status one. -/
def c7Env : RepoEnv :=
  { cloneResult := .ok "c0".toList, tree := oneCookbookTree,
    outExists := fun _ => false, extractProc := fun _ => .exited 1 [] "failed".toList }

/-- Witness environment map: one URL raises, one fails to clone, the rest
succeed with a one-cookbook tree. -/
def c1EnvOf : Str → Except Str RepoEnv := fun u =>
  if u = "bad".toList then .error "boom".toList
  else if u = "cerr".toList then
    .ok { cloneResult := .error "git clone failed".toList, tree := [],
          outExists := fun _ => false, extractProc := fun _ => .exited 0 [] [] }
  else
    .ok { cloneResult := .ok "c0".toList, tree := oneCookbookTree,
          outExists := fun _ => false, extractProc := fun _ => .exited 0 "out".toList [] }

/-- Witness URL list covering the done, fatal_error and clone_error cases. -/
def c1Urls : List Str := ["good".toList, "bad".toList, "cerr".toList]


theorem squashFuel_all_class :
    ∀ (fuel : Nat) (s : Str), s.length ≤ fuel → ∀ c ∈ squashFuel fuel s, charClass c = true := by
  intro fuel
  induction fuel with
  | zero =>
    intro s hs c hc
    rw [List.length_eq_zero.mp (Nat.le_zero.mp hs)] at hc
    simp [squashFuel] at hc
  | succ fuel ih =>
    intro s hs c hc
    cases s with
    | nil => simp [squashFuel] at hc
    | cons x rest =>
      rw [List.length_cons, Nat.succ_le_succ_iff] at hs
      by_cases hcl : charClass x = true
      · rw [squashFuel, if_pos hcl] at hc
        rcases List.mem_cons.mp hc with rfl | hc
        · exact hcl
        · exact ih rest hs c hc
      · rw [squashFuel, if_neg hcl] at hc
        rcases List.mem_cons.mp hc with rfl | hc
        · decide
        · exact ih _ (le_trans (List.Sublist.length_le (List.dropWhile_sublist _)) hs) c hc

theorem squashBad_all_class (s : Str) : ∀ c ∈ squashBad s, charClass c = true :=
  squashFuel_all_class s.length s le_rfl

theorem squashFuel_fixed :
    ∀ (fuel : Nat) (s : Str), (∀ c ∈ s, charClass c = true) → squashFuel fuel s = s := by
  intro fuel
  induction fuel with
  | zero => intro s _; cases s <;> rfl
  | succ fuel ih =>
    intro s h
    cases s with
    | nil => rfl
    | cons x rest =>
      rw [squashFuel, if_pos (h x (List.mem_cons_self x rest))]
      exact congrArg (x :: ·) (ih rest fun c hc => h c (List.mem_cons_of_mem x hc))

theorem squashBad_fixed (s : Str) (h : ∀ c ∈ s, charClass c = true) : squashBad s = s :=
  squashFuel_fixed s.length s h

theorem squashFuel_fuel_irrel :
    ∀ (f1 f2 : Nat) (s : Str), s.length ≤ f1 → s.length ≤ f2 →
      squashFuel f1 s = squashFuel f2 s := by
  intro f1
  induction f1 with
  | zero =>
    intro f2 s hs _
    rw [List.length_eq_zero.mp (Nat.le_zero.mp hs)]
    cases f2 <;> rfl
  | succ f1 ih =>
    intro f2 s h1 h2
    cases s with
    | nil => cases f2 <;> rfl
    | cons x rest =>
      rw [List.length_cons, Nat.succ_le_succ_iff] at h1
      cases f2 with
      | zero => simp at h2
      | succ f2 =>
        rw [List.length_cons, Nat.succ_le_succ_iff] at h2
        by_cases hcl : charClass x = true
        · rw [squashFuel, squashFuel, if_pos hcl, if_pos hcl, ih f2 rest h1 h2]
        · rw [squashFuel, squashFuel, if_neg hcl, if_neg hcl]
          have hd := List.Sublist.length_le (List.dropWhile_sublist (l := rest)
            (p := fun d => !charClass d))
          rw [ih f2 _ (le_trans hd h1) (le_trans hd h2)]

theorem collapseRuns_eq_squashFuel :
    ∀ (fuel : Nat) (s : Str), s.length ≤ fuel →
      collapseRuns false s = squashFuel fuel s ∧
        collapseRuns true s = squashFuel fuel (s.dropWhile (fun d => !charClass d)) := by
  intro fuel
  induction fuel with
  | zero =>
    intro s hs
    rw [List.length_eq_zero.mp (Nat.le_zero.mp hs)]
    exact ⟨rfl, rfl⟩
  | succ fuel ih =>
    intro s hs
    cases s with
    | nil => exact ⟨rfl, rfl⟩
    | cons c rest =>
      rw [List.length_cons, Nat.succ_le_succ_iff] at hs
      by_cases hcl : charClass c = true
      · constructor
        · rw [collapseRuns, squashFuel, if_pos hcl, if_pos hcl, (ih rest hs).1]
        · have hb : (!charClass c) = false := by rw [hcl]; rfl
          rw [List.dropWhile_cons, if_neg (by simp [hb])]
          rw [collapseRuns, if_pos hcl, squashFuel, if_pos hcl, (ih rest hs).1]
      · have hb : (!charClass c) = true := by rw [Bool.eq_false_iff.mpr hcl]; rfl
        constructor
        · rw [collapseRuns, squashFuel, if_neg hcl, if_neg hcl, if_neg (by simp),
            (ih rest hs).2]
        · rw [collapseRuns, if_neg hcl, if_pos rfl, List.dropWhile_cons, if_pos hb]
          have hd := List.Sublist.length_le (List.dropWhile_sublist (l := rest)
            (p := fun d => !charClass d))
          rw [(ih rest hs).2]
          exact squashFuel_fuel_irrel fuel (fuel + 1) _ (le_trans hd hs)
            (le_trans hd (Nat.le_succ_of_le hs))

theorem collapseRuns_eq_squashBad (s : Str) : collapseRuns false s = squashBad s :=
  (collapseRuns_eq_squashFuel s.length s le_rfl).1

theorem replaceAllFuel_of_no_occurrence (pat : Str) :
    ∀ (fuel : Nat) (s : Str), occursIn pat s = false → replaceAllFuel pat fuel s = s := by
  intro fuel
  induction fuel with
  | zero => intro s _; cases s <;> rfl
  | succ fuel ih =>
    intro s h
    cases s with
    | nil => rfl
    | cons c rest =>
      rw [occursIn, Bool.or_eq_false_iff] at h
      rw [replaceAllFuel, if_neg (by simp [h.1])]
      exact congrArg (c :: ·) (ih rest h.2)

theorem replaceAllGo_of_no_occurrence (pat s : Str)
    (h : occursIn pat s = false) : replaceAllGo pat s = s :=
  replaceAllFuel_of_no_occurrence pat s.length s h


theorem strLe_total (a : Str) : ∀ b : Str, strLe a b = true ∨ strLe b a = true := by
  induction a with
  | nil => intro b; left; rfl
  | cons c cs ih =>
    intro b
    cases b with
    | nil => right; rfl
    | cons d ds =>
      rcases Nat.lt_trichotomy c.toNat d.toNat with h | h | h
      · left; simp [strLe, h]
      · rcases ih ds with h2 | h2
        · left; simp [strLe, h, h2]
        · right; simp [strLe, h.symm, h2]
      · right; simp [strLe, h]

theorem strLe_trans (a : Str) : ∀ b c : Str,
    strLe a b = true → strLe b c = true → strLe a c = true := by
  induction a with
  | nil => intro b c _ _; rfl
  | cons x xs ih =>
    intro b c h1 h2
    cases b with
    | nil => simp [strLe] at h1
    | cons y ys =>
      cases c with
      | nil => simp [strLe] at h2
      | cons z zs =>
        simp only [strLe, Bool.or_eq_true, Bool.and_eq_true, decide_eq_true_eq] at h1 h2 ⊢
        rcases h1 with h1 | ⟨e1, r1⟩
        · rcases h2 with h2 | ⟨e2, r2⟩
          · left; omega
          · left; omega
        · rcases h2 with h2 | ⟨e2, r2⟩
          · left; omega
          · right; exact ⟨by omega, ih ys zs r1 r2⟩

theorem keyLe_total (a b : Str) : keyLe a b = true ∨ keyLe b a = true := by
  rcases Nat.lt_trichotomy a.length b.length with h | h | h
  · left; simp [keyLe, h]
  · rcases strLe_total a b with h2 | h2
    · left; simp [keyLe, h, h2]
    · right; simp [keyLe, h.symm, h2]
  · right; simp [keyLe, h]

theorem keyLe_trans (a b c : Str) (h1 : keyLe a b = true) (h2 : keyLe b c = true) :
    keyLe a c = true := by
  simp only [keyLe, Bool.or_eq_true, Bool.and_eq_true, decide_eq_true_eq] at h1 h2 ⊢
  rcases h1 with h1 | ⟨e1, r1⟩
  · rcases h2 with h2 | ⟨e2, r2⟩
    · left; omega
    · left; omega
  · rcases h2 with h2 | ⟨e2, r2⟩
    · left; omega
    · right; exact ⟨by omega, strLe_trans a b c r1 r2⟩

instance : IsTotal FsPath pathLe :=
  ⟨fun x y => keyLe_total (posixTail x) (posixTail y)⟩

instance : IsTrans FsPath pathLe :=
  ⟨fun x y z => keyLe_trans (posixTail x) (posixTail y) (posixTail z)⟩

theorem pexists_iff (t : FsTree) (q : FsPath) :
    pexists t q = true ↔ ∃ k, (q, k) ∈ t := by
  unfold pexists
  rw [List.any_eq_true]
  constructor
  · rintro ⟨e, he, hq⟩
    rw [beq_iff_eq] at hq
    exact ⟨e.2, by rwa [← hq, Prod.mk.eta]⟩
  · rintro ⟨k, hk⟩
    exact ⟨(q, k), hk, by rw [beq_iff_eq]⟩

theorem mem_consideredMarkers (t : FsTree) (d : Nat) (p : FsPath) :
    p ∈ consideredMarkers t d ↔
      (∃ k, (p, k) ∈ t) ∧ p.getLast? = some mdComp ∧ p.length ≤ d := by
  unfold consideredMarkers
  rw [List.mem_map]
  constructor
  · rintro ⟨e, he, rfl⟩
    rw [List.mem_filter, Bool.and_eq_true, beq_iff_eq, decide_eq_true_eq] at he
    exact ⟨⟨e.2, by rw [Prod.mk.eta]; exact he.1⟩, he.2.1, he.2.2⟩
  · rintro ⟨⟨k, hk⟩, hlast, hlen⟩
    refine ⟨(p, k), ?_, rfl⟩
    rw [List.mem_filter, Bool.and_eq_true, beq_iff_eq, decide_eq_true_eq]
    exact ⟨hk, hlast, hlen⟩

theorem mem_rootsRaw (t : FsTree) (d : Nat) (base : FsPath) :
    base ∈ rootsRaw t d ↔
      (∃ k, (base ++ [mdComp], k) ∈ t) ∧ subdirOk t base = true ∧ base.length + 1 ≤ d := by
  unfold rootsRaw
  rw [List.mem_map]
  constructor
  · rintro ⟨p, hp, rfl⟩
    rw [List.mem_filter] at hp
    rw [mem_consideredMarkers] at hp
    obtain ⟨⟨⟨k, hk⟩, hlast, hlen⟩, hsub⟩ := hp
    have hne : p ≠ [] := by
      intro h; rw [h] at hlast; exact Option.noConfusion hlast
    have hconcat : p.dropLast ++ [mdComp] = p := by
      have := List.dropLast_append_getLast hne
      rwa [(Option.some_inj.mp ((List.getLast?_eq_getLast_of_ne_nil hne).symm.trans hlast))]
        at this
    refine ⟨⟨k, by rwa [hconcat]⟩, hsub, ?_⟩
    have : (p.dropLast ++ [mdComp]).length = p.length := by rw [hconcat]
    rw [List.length_append] at this
    simpa using this.symm ▸ hlen
  · rintro ⟨⟨k, hk⟩, hsub, hlen⟩
    refine ⟨base ++ [mdComp], ?_, List.dropLast_concat⟩
    rw [List.mem_filter, mem_consideredMarkers, List.dropLast_concat]
    refine ⟨⟨⟨k, hk⟩, List.getLast?_concat _, ?_⟩, hsub⟩
    rw [List.length_append]
    simpa using hlen

theorem mem_find_cookbook_roots (t : FsTree) (d : Nat) (base : FsPath) :
    base ∈ find_cookbook_roots t d ↔ base ∈ rootsRaw t d := by
  unfold find_cookbook_roots
  rw [List.mem_insertionSort, List.mem_dedup]

theorem mainSink_go (outs : List RepoOutcome) :
    ∀ a b : List RepoOutcome,
      outs.foldl
        (fun acc r => if routeToErrors r then (acc.1 ++ [r], acc.2) else (acc.1, acc.2 ++ [r]))
        (a, b) =
      (a ++ outs.filter routeToErrors, b ++ outs.filter (fun r => !routeToErrors r)) := by
  induction outs with
  | nil => intro a b; simp
  | cons r rest ih =>
    intro a b
    by_cases hr : routeToErrors r = true
    · simp only [List.foldl_cons, if_pos hr, ih]
      simp [List.filter_cons, hr]
    · have hr' : routeToErrors r = false := Bool.eq_false_iff.mpr hr
      simp only [List.foldl_cons, if_neg hr, ih]
      simp [List.filter_cons, hr']

theorem mainSink_eq (outs : List RepoOutcome) :
    mainSink outs = (outs.filter routeToErrors, outs.filter (fun r => !routeToErrors r)) := by
  unfold mainSink
  simpa using mainSink_go outs [] []

theorem routeToErrors_iff (r : RepoOutcome) :
    routeToErrors r = true ↔ (r.status = .clone_error ∨ r.status = .fatal_error) := by
  unfold routeToErrors
  rw [Bool.or_eq_true, decide_eq_true_eq, decide_eq_true_eq, or_comm]


theorem work_status (envOf : Str → Except Str RepoEnv) (outDir : Str) (ow dr : Bool)
    (u : Str) :
    (work envOf outDir ow dr u).status = .done ∨
      (work envOf outDir ow dr u).status = .no_cookbooks ∨
      (work envOf outDir ow dr u).status = .clone_error ∨
      (work envOf outDir ow dr u).status = .fatal_error := by
  rcases henv : envOf u with e | env
  · simp [work, henv]
  · rcases hcl : env.cloneResult with e | commit
    · simp [work, henv, process_repo, hcl]
    · cases hroots : (find_cookbook_roots env.tree 6).isEmpty
      · simp [work, henv, process_repo, hcl, hroots]
      · simp [work, henv, process_repo, hcl, hroots]

theorem work_repo (envOf : Str → Except Str RepoEnv) (outDir : Str) (ow dr : Bool)
    (u : Str) : (work envOf outDir ow dr u).repo = u := by
  rcases henv : envOf u with e | env
  · simp [work, henv]
  · rcases hcl : env.cloneResult with e | commit
    · simp [work, henv, process_repo, hcl]
    · cases hroots : (find_cookbook_roots env.tree 6).isEmpty
      · simp [work, henv, process_repo, hcl, hroots]
      · simp [work, henv, process_repo, hcl, hroots]

theorem dispatch_skip (outDir url commit : Str) (env : RepoEnv) (root : FsPath)
    (hex : env.outExists (outFileFor outDir url commit (posixOf root)) = true) :
    dispatchUnit outDir url commit false false env root =
      ({ cookbook := posixOf root, status := .skipped,
         out := some (outFileFor outDir url commit (posixOf root)), detail := none }, false) := by
  simp [dispatchUnit, hex]

theorem dispatch_extract (outDir url commit : Str) (env : RepoEnv) (root : FsPath)
    (hex : env.outExists (outFileFor outDir url commit (posixOf root)) = false) :
    dispatchUnit outDir url commit false false env root =
      ({ cookbook := posixOf root,
         status := if (extract_cookbook (env.extractProc (posixOf root))).1 then .ok
                   else .extract_error,
         out := some (outFileFor outDir url commit (posixOf root)),
         detail := some ((pyStrip (extract_cookbook (env.extractProc (posixOf root))).2).take 4000) },
       true) := by
  simp [dispatchUnit, hex]

theorem dispatch_cookbook (outDir url commit : Str) (ow dr : Bool) (env : RepoEnv)
    (root : FsPath) :
    (dispatchUnit outDir url commit ow dr env root).1.cookbook = posixOf root := by
  unfold dispatchUnit
  split_ifs <;> simp <;> split_ifs <;> simp

theorem dispatch_after_skip (outDir url commit : Str) (env : RepoEnv) (out1 : RepoOutcome)
    (root : FsPath)
    (h2 : (dispatchUnit outDir url commit false false env root).1.status = .ok ∨
          (dispatchUnit outDir url commit false false env root).1.status = .skipped)
    (hok : (dispatchUnit outDir url commit false false env root).1.status = .ok →
           writtenBy out1 (outFileFor outDir url commit (posixOf root)) = true) :
    dispatchUnit outDir url commit false false (envAfter env out1) root =
      ({ cookbook := posixOf root, status := .skipped,
         out := some (outFileFor outDir url commit (posixOf root)), detail := none }, false) := by
  cases hex : env.outExists (outFileFor outDir url commit (posixOf root)) with
  | true =>
    apply dispatch_skip
    show (env.outExists _ || writtenBy out1 _) = true
    rw [hex, Bool.true_or]
  | false =>
    have hd := dispatch_extract outDir url commit env root hex
    have hstat : (dispatchUnit outDir url commit false false env root).1.status = .ok := by
      rcases h2 with h2 | h2
      · exact h2
      · exfalso
        rw [hd] at h2
        by_cases hrc : (extract_cookbook (env.extractProc (posixOf root))).1 = true
        · simp [hrc] at h2
        · simp [Bool.eq_false_iff.mpr hrc] at h2
    have hw := hok hstat
    apply dispatch_skip
    show (env.outExists _ || writtenBy out1 _) = true
    rw [hex, hw, Bool.false_or]

/-- Claim C8, counterexample: sanitize_path is not idempotent.  Stripping
"https://" from "xhttps:https:////y" splices the remainder into a fresh
"https://" occurrence, which only the second application removes. -/
theorem c8_sanitize_not_idempotent :
    sanitize_path (sanitize_path "xhttps:https:////y".toList) ≠
      sanitize_path "xhttps:https:////y".toList := by
  decide

/-- Claim C8, amended: sanitize_path is idempotent on every input whose
sanitized form contains no occurrence of "https://" or "http://"; on such
outputs both replace calls are no-ops and every character already lies in
the whitelist, so the re.sub pass is a no-op as well. -/
theorem c8_sanitize_idempotent_no_scheme (x : Str)
    (h1 : occursIn "https://".toList (sanitize_path x) = false)
    (h2 : occursIn "http://".toList (sanitize_path x) = false) :
    sanitize_path (sanitize_path x) = sanitize_path x := by
  show squashBad (replaceAllGo "http://".toList
      (replaceAllGo "https://".toList (sanitize_path x))) = sanitize_path x
  rw [replaceAllGo_of_no_occurrence _ _ h1, replaceAllGo_of_no_occurrence _ _ h2]
  exact squashBad_fixed _ (squashBad_all_class _)

/-- Witness for the amended C8 theorem at the concrete input "a?b". -/
theorem c8_sanitize_idempotent_no_scheme_witness :
    sanitize_path (sanitize_path "a?b".toList) = sanitize_path "a?b".toList :=
  c8_sanitize_idempotent_no_scheme "a?b".toList (by decide) (by decide)

/-- Claim C9, counterexample: the re.sub call replaces a maximal run of
characters outside the class with one underscore, not each individual
character; the two spaces in "https://a  b.git" become a single
underscore, while the claim's per-character wording demands two. -/
theorem c9_sanitize_not_per_char :
    sanitize_path "https://a  b.git".toList ≠
      sanitizeSpecPerChar "https://a  b.git".toList := by
  decide

/-- Claim C9, amended: sanitize_path equals the scheme-stripped input with
every maximal run of characters outside [A-Za-z0-9._/@:-] replaced by one
underscore (and, being a pure function, the same URL always yields the
same segment). -/
theorem c9_sanitize_collapses_runs (x : Str) :
    sanitize_path x = sanitizeSpecRuns x := by
  show squashBad (stripSchemes x) = collapseRuns false (stripSchemes x)
  exact (collapseRuns_eq_squashBad (stripSchemes x)).symm

/-- Claim C5: for a fixed tree, discovery returns a duplicate-free list,
sorted primarily by posix path length and secondarily lexicographically,
whose members are exactly the candidate roots of the scan; since the
result is a pure function of the tree, the ordering is identical across
runs. -/
theorem c5_discovery_sorted_nodup (t : FsTree) (d : Nat) :
    (find_cookbook_roots t d).Nodup ∧
      List.Sorted pathLe (find_cookbook_roots t d) ∧
      (∀ p, p ∈ find_cookbook_roots t d ↔ p ∈ rootsRaw t d) := by
  refine ⟨?_, ?_, ?_⟩
  · exact ((List.perm_insertionSort pathLe _).nodup_iff).mpr (List.nodup_dedup _)
  · exact List.sorted_insertionSort pathLe _
  · intro p
    exact mem_find_cookbook_roots t d p

/-- Claim C3, counterexample: in a tree where directory a holds the marker
file metadata.rb and a plain file (not a sub-directory) named recipes, the
code still returns a as a unit root, because the source tests Path.exists
rather than is-a-directory; the claim as stated requires a marker
sub-directory and would exclude a. -/
theorem c3_counterexample :
    ["a".toList] ∈ find_cookbook_roots c3Tree 6 ∧ ¬ unitRootSpecC3 c3Tree ["a".toList] := by
  constructor
  · decide
  · intro h
    rcases h with ⟨_, h2 | h2⟩ <;> revert h2 <;> decide

/-- Claim C3, amended: a directory is returned as a unit root exactly when
the tree has an entry of any kind named metadata.rb directly inside it, an
entry of any kind named recipes or resources directly inside it, and its
component depth including the marker entry is within the bound. -/
theorem c3_unit_root_iff (t : FsTree) (d : Nat) (base : FsPath) :
    base ∈ find_cookbook_roots t d ↔
      ((∃ k, (base ++ [mdComp], k) ∈ t) ∧
        ((∃ k, (base ++ [recipesComp], k) ∈ t) ∨ (∃ k, (base ++ [resourcesComp], k) ∈ t)) ∧
        base.length + 1 ≤ d) := by
  rw [mem_find_cookbook_roots, mem_rootsRaw]
  constructor
  · rintro ⟨hm, hsub, hlen⟩
    refine ⟨hm, ?_, hlen⟩
    unfold subdirOk at hsub
    rcases Bool.or_eq_true .. |>.mp hsub with h | h
    · exact Or.inl ((pexists_iff t _).mp h)
    · exact Or.inr ((pexists_iff t _).mp h)
  · rintro ⟨hm, hsub, hlen⟩
    refine ⟨hm, ?_, hlen⟩
    unfold subdirOk
    rcases hsub with h | h
    · rw [(pexists_iff t _).mpr h, Bool.true_or]
    · rw [(pexists_iff t _).mpr h, Bool.or_true]

/-- Claim C4, counterexample: with the default maximum depth six, a fully
qualifying cookbook whose metadata.rb sits at directory depth exactly six
(seven relative components including the marker) is excluded, although the
claim says a marker at directory depth equal to the maximum is considered;
raising the bound to seven shows the tree is otherwise qualifying. -/
theorem c4_counterexample :
    (c4DeepDir ++ [mdComp], false) ∈ c4Tree ∧
      (c4DeepDir ++ [recipesComp], true) ∈ c4Tree ∧
      c4DeepDir.length = 6 ∧
      find_cookbook_roots c4Tree 6 = [] ∧
      find_cookbook_roots c4Tree 7 = [c4DeepDir] := by
  refine ⟨by decide, by decide, by decide, by decide, by decide⟩

/-- Claim C4, amended: discovery considers exactly the marker entries whose
relative component count, the marker file itself included, does not exceed
the maximum depth; equivalently a marker at directory depth at most
maximum minus one is considered and a marker at directory depth equal to
the maximum is excluded. -/
theorem c4_depth_guard (t : FsTree) (d : Nat) (p : FsPath) (k : Bool)
    (hmem : (p, k) ∈ t) (hlast : p.getLast? = some mdComp) :
    p ∈ consideredMarkers t d ↔ p.length ≤ d := by
  rw [mem_consideredMarkers]
  constructor
  · rintro ⟨_, _, hlen⟩
    exact hlen
  · intro hlen
    exact ⟨⟨k, hmem⟩, hlast, hlen⟩

/-- Witness for the amended C4 theorem: in the deep tree, the marker with
seven relative components is considered at depth bound seven. -/
theorem c4_depth_guard_witness :
    (c4DeepDir ++ [mdComp]) ∈ consideredMarkers c4Tree 7 ↔ (c4DeepDir ++ [mdComp]).length ≤ 7 :=
  c4_depth_guard c4Tree 7 (c4DeepDir ++ [mdComp]) false (by decide) (by decide)

/-- Claim C10: the repos-file loop keeps exactly the stripped, non-blank,
non-comment lines in file order, and a positive limit N truncates the list
to its first N entries. -/
theorem c10_repos_file (lines : List Str) (N : Int) (hN : 0 < N) :
    buildRepos lines = specRepoLines lines ∧
      applyLimit N (buildRepos lines) = (specRepoLines lines).take N.toNat := by
  have hbuild : buildRepos lines = specRepoLines lines := by
    induction lines with
    | nil => rfl
    | cons line rest ih =>
      unfold buildRepos specRepoLines
      rw [List.map_cons, List.filter_cons]
      by_cases h : pyStrip line = [] ∨ "#".toList.isPrefixOf (pyStrip line) = true
      · rw [if_pos h]
        have : (!(List.isEmpty (pyStrip line) || List.isPrefixOf "#".toList (pyStrip line)))
            = false := by
          rcases h with h | h
          · rw [h]; rfl
          · rw [h, Bool.or_true]; rfl
        rw [this]
        simpa [specRepoLines] using ih
      · rw [if_neg h]
        rw [not_or] at h
        have : (!(List.isEmpty (pyStrip line) || List.isPrefixOf "#".toList (pyStrip line)))
            = true := by
          have h1 : List.isEmpty (pyStrip line) = false := by
            cases hE : pyStrip line with
            | nil => exact absurd hE h.1
            | cons a as => rfl
          have h2 : List.isPrefixOf "#".toList (pyStrip line) = false :=
            Bool.eq_false_iff.mpr h.2
          rw [h1, h2]
          rfl
        rw [this]
        simpa [specRepoLines] using congrArg (pyStrip line :: ·) ih
  refine ⟨hbuild, ?_⟩
  rw [hbuild]
  unfold applyLimit
  by_cases h : N ≠ 0 ∧ N < ((specRepoLines lines).length : Int)
  · rw [if_pos h]
    unfold pySliceTo
    rw [if_pos (le_of_lt hN)]
  · rw [if_neg h]
    rw [not_and_or] at h
    have hlen : ((specRepoLines lines).length : Int) ≤ N := by
      rcases h with h | h
      · exact absurd (by omega : N ≠ 0) h
      · omega
    rw [List.take_of_length_le (by omega)]

/-- Witness for the C10 theorem on a concrete five-line file with limit
one. -/
theorem c10_repos_file_witness :
    buildRepos ["  repo1 ".toList, "".toList, "# note".toList, "repo2".toList, "   ".toList]
        = specRepoLines
          ["  repo1 ".toList, "".toList, "# note".toList, "repo2".toList, "   ".toList] ∧
      applyLimit 1
          (buildRepos
            ["  repo1 ".toList, "".toList, "# note".toList, "repo2".toList, "   ".toList])
        = (specRepoLines
            ["  repo1 ".toList, "".toList, "# note".toList, "repo2".toList, "   ".toList]).take
            (Int.toNat 1) :=
  c10_repos_file _ 1 (by decide)

/-- Claim C6: when the pipeline for a URL raises, the worker wrapper
returns a fatal_error record carrying that URL and the failure text, and
in every case the worker returns a record for the submitted URL rather
than propagating an exception. -/
theorem c6_worker_boundary (envOf : Str → Except Str RepoEnv) (outDir : Str)
    (ow dr : Bool) (url e : Str) (h : envOf url = .error e) :
    work envOf outDir ow dr url =
        { repo := url, status := .fatal_error, commit := none, cookbooks := none,
          error := some e } ∧
      (work envOf outDir ow dr url).repo = url ∧
      (work envOf outDir ow dr url).status = .fatal_error := by
  have hw : work envOf outDir ow dr url =
      { repo := url, status := .fatal_error, commit := none, cookbooks := none,
        error := some e } := by
    unfold work
    rw [h]
  exact ⟨hw, by rw [hw], by rw [hw]⟩

/-- Witness for the C6 theorem: a pipeline that always raises yields the
fatal_error record for the submitted URL. -/
theorem c6_worker_boundary_witness :
    work (fun _ => Except.error "boom".toList) [] false false "u".toList =
        { repo := "u".toList, status := .fatal_error, commit := none, cookbooks := none,
          error := some "boom".toList } ∧
      (work (fun _ => Except.error "boom".toList) [] false false "u".toList).repo = "u".toList ∧
      (work (fun _ => Except.error "boom".toList) [] false false "u".toList).status =
        .fatal_error :=
  c6_worker_boundary (fun _ => Except.error "boom".toList) [] false false "u".toList
    "boom".toList rfl

/-- Claim C1: over any batch, the two logs together hold exactly the one
outcome produced per submitted URL (a permutation of the worker outputs,
with total length equal to the number of submissions); an outcome sits in
errors.jsonl precisely when its status is clone_error or fatal_error and
in manifest.jsonl precisely otherwise, and every outcome's status is one
of done, no_cookbooks, clone_error, fatal_error. -/
theorem c1_one_record_per_repo (envOf : Str → Except Str RepoEnv) (outDir : Str)
    (ow dr : Bool) (urls : List Str) :
    ((runBatch envOf outDir ow dr urls).1 ++ (runBatch envOf outDir ow dr urls).2).Perm
        (urls.map (work envOf outDir ow dr)) ∧
      (runBatch envOf outDir ow dr urls).1.length +
          (runBatch envOf outDir ow dr urls).2.length = urls.length ∧
      (∀ r ∈ urls.map (work envOf outDir ow dr),
        (r ∈ (runBatch envOf outDir ow dr urls).1 ↔
          (r.status = .clone_error ∨ r.status = .fatal_error))) ∧
      (∀ r ∈ urls.map (work envOf outDir ow dr),
        (r ∈ (runBatch envOf outDir ow dr urls).2 ↔
          ¬(r.status = .clone_error ∨ r.status = .fatal_error))) ∧
      (∀ r ∈ urls.map (work envOf outDir ow dr),
        r.status = .done ∨ r.status = .no_cookbooks ∨
          r.status = .clone_error ∨ r.status = .fatal_error) := by
  have hsink : runBatch envOf outDir ow dr urls =
      ((urls.map (work envOf outDir ow dr)).filter routeToErrors,
       (urls.map (work envOf outDir ow dr)).filter (fun r => !routeToErrors r)) := by
    unfold runBatch
    exact mainSink_eq _
  have hperm := List.filter_append_perm routeToErrors (urls.map (work envOf outDir ow dr))
  refine ⟨?_, ?_, ?_, ?_, ?_⟩
  · rw [hsink]
    exact hperm
  · rw [hsink]
    have := hperm.length_eq
    rw [List.length_append] at this
    rw [this, List.length_map]
  · intro r hr
    rw [hsink]
    simp only [List.mem_filter]
    rw [← routeToErrors_iff r]
    exact ⟨fun h => h.2, fun h => ⟨hr, h⟩⟩
  · intro r hr
    rw [hsink]
    simp only [List.mem_filter, Bool.not_eq_true']
    rw [← routeToErrors_iff r]
    constructor
    · intro h
      rw [h.2]
      exact Bool.false_ne_true
    · intro h
      exact ⟨hr, Bool.eq_false_iff.mpr h⟩
  · intro r hr
    rcases List.mem_map.mp hr with ⟨u, _, rfl⟩
    exact work_status envOf outDir ow dr u


theorem envAfter_tree (env : RepoEnv) (o : RepoOutcome) : (envAfter env o).tree = env.tree :=
  rfl

theorem process_repo_no_cookbooks (url outDir : Str) (ow dr : Bool) (env : RepoEnv)
    (commit : Str) (hclone : env.cloneResult = .ok commit)
    (hroots : (find_cookbook_roots env.tree 6).isEmpty = true) :
    process_repo url outDir ow dr env =
      ({ repo := url, status := .no_cookbooks, commit := some commit }, []) := by
  unfold process_repo
  rw [hclone]
  dsimp only
  rw [hroots]
  rfl

theorem process_repo_done (url outDir : Str) (ow dr : Bool) (env : RepoEnv)
    (commit : Str) (hclone : env.cloneResult = .ok commit)
    (hroots : (find_cookbook_roots env.tree 6).isEmpty = false) :
    process_repo url outDir ow dr env =
      ({ repo := url, status := .done, commit := some commit,
         cookbooks := some (((find_cookbook_roots env.tree 6).map
           (dispatchUnit outDir url commit ow dr env)).map (·.1)) },
       (((find_cookbook_roots env.tree 6).map
           (dispatchUnit outDir url commit ow dr env)).filter (·.2)).map
         (fun pr => pr.1.cookbook)) := by
  unfold process_repo
  rw [hclone]
  dsimp only
  rw [hroots]
  rfl

/-- Claim C2: outside dry-run mode, a unit whose deterministic output path
already exists is recorded as skipped without invoking the extractor when
the overwrite flag is unset; consequently a second run over unchanged
repository state, in which the first run's artifacts persist, reports
every unit of a fully completed repository as skipped and invokes the
extractor for none of them. -/
theorem c2_skip_idempotent (outDir url commit : Str) (env : RepoEnv)
    (hclone : env.cloneResult = .ok commit) :
    (∀ root ∈ find_cookbook_roots env.tree 6,
      env.outExists (outFileFor outDir url commit (posixOf root)) = true →
        dispatchUnit outDir url commit false false env root =
          ({ cookbook := posixOf root, status := .skipped,
             out := some (outFileFor outDir url commit (posixOf root)), detail := none },
           false)) ∧
      ((∀ c ∈ (process_repo url outDir false false env).1.cookbooks.getD [],
          c.status = .ok ∨ c.status = .skipped) →
        (∀ c ∈ (process_repo url outDir false false
              (envAfter env (process_repo url outDir false false env).1)).1.cookbooks.getD [],
          c.status = .skipped) ∧
        (process_repo url outDir false false
            (envAfter env (process_repo url outDir false false env).1)).2 = []) := by
  constructor
  · intro root _ hex
    exact dispatch_skip outDir url commit env root hex
  · intro hall
    cases hroots : (find_cookbook_roots env.tree 6).isEmpty with
    | true =>
      have h2 := process_repo_no_cookbooks url outDir false false
        (envAfter env (process_repo url outDir false false env).1) commit hclone hroots
      rw [h2]
      exact ⟨fun c hc => absurd hc (by simp), rfl⟩
    | false =>
      have h1 := process_repo_done url outDir false false env commit hclone hroots
      have hcb : (process_repo url outDir false false env).1.cookbooks =
          some (((find_cookbook_roots env.tree 6).map
            (dispatchUnit outDir url commit false false env)).map (·.1)) := by
        rw [h1]
      have hd2 : ∀ root ∈ find_cookbook_roots env.tree 6,
          dispatchUnit outDir url commit false false
              (envAfter env (process_repo url outDir false false env).1) root =
            ({ cookbook := posixOf root, status := .skipped,
               out := some (outFileFor outDir url commit (posixOf root)), detail := none },
             false) := by
        intro root hroot
        apply dispatch_after_skip
        · apply hall
          rw [hcb]
          simp only [Option.getD_some]
          exact List.mem_map.mpr ⟨dispatchUnit outDir url commit false false env root,
            List.mem_map.mpr ⟨root, hroot, rfl⟩, rfl⟩
        · intro hst
          by_cases hex : env.outExists (outFileFor outDir url commit (posixOf root)) = true
          · rw [dispatch_skip outDir url commit env root hex] at hst
            exact absurd hst (by simp)
          · have hex' := Bool.eq_false_iff.mpr hex
            have hd := dispatch_extract outDir url commit env root hex'
            unfold writtenBy
            rw [hcb]
            simp only [Option.getD_some]
            rw [List.any_eq_true]
            refine ⟨(dispatchUnit outDir url commit false false env root).1,
              List.mem_map.mpr ⟨dispatchUnit outDir url commit false false env root,
                List.mem_map.mpr ⟨root, hroot, rfl⟩, rfl⟩, ?_⟩
            rw [Bool.and_eq_true, beq_iff_eq, beq_iff_eq]
            exact ⟨hst, by rw [hd]⟩
      have h2 := process_repo_done url outDir false false
        (envAfter env (process_repo url outDir false false env).1) commit hclone hroots
      rw [h2]
      constructor
      · intro c hc
        simp only [Option.getD_some] at hc
        rcases List.mem_map.mp hc with ⟨pr, hpr, rfl⟩
        rcases List.mem_map.mp hpr with ⟨root, hroot, rfl⟩
        rw [hd2 root hroot]
      · have hfilter : ((find_cookbook_roots env.tree 6).map
            (dispatchUnit outDir url commit false false
              (envAfter env (process_repo url outDir false false env).1))).filter (·.2)
            = [] := by
          rw [List.filter_eq_nil_iff]
          intro pr hpr
          rcases List.mem_map.mp hpr with ⟨root, hroot, rfl⟩
          rw [hd2 root hroot]
          simp
        simp only [envAfter_tree]
        rw [hfilter]
        rfl

/-- Witness for the C2 theorem: with an environment whose single cookbook
output already exists, dispatch skips without invoking, and the second run
invokes nothing. -/
theorem c2_skip_idempotent_witness :
    dispatchUnit [] "u".toList "c0".toList false false c2Env ["a".toList] =
        ({ cookbook := posixOf ["a".toList], status := .skipped,
           out := some (outFileFor [] "u".toList "c0".toList (posixOf ["a".toList])),
           detail := none }, false) ∧
      (process_repo "u".toList [] false false
          (envAfter c2Env (process_repo "u".toList [] false false c2Env).1)).2 = [] :=
  ⟨(c2_skip_idempotent [] "u".toList "c0".toList c2Env rfl).1 ["a".toList] (by decide) rfl,
   ((c2_skip_idempotent [] "u".toList "c0".toList c2Env rfl).2 (by decide)).2⟩

/-- Claim C7: a unit whose extractor invocation yields a non-zero return
code is recorded as extract_error with a detail snippet of at most 4000
characters; a timed-out invocation is killed and surfaces as return code
124, which extract_cookbook treats as failure; and the repository's
cookbook list still holds one entry per discovered root, labelled in
discovery order, whatever each unit's outcome was. -/
theorem c7_extract_error (outDir url commit : Str) (env : RepoEnv) (root : FsPath)
    (hex : env.outExists (outFileFor outDir url commit (posixOf root)) = false)
    (hrc : (runModel (env.extractProc (posixOf root))).1 ≠ 0) :
    (dispatchUnit outDir url commit false false env root).1.status = .extract_error ∧
      ((dispatchUnit outDir url commit false false env root).1.detail.getD []).length ≤ 4000 ∧
      (∀ o e, (runModel (.timedOut o e)).1 = 124 ∧
        (extract_cookbook (.timedOut o e)).1 = false) ∧
      (env.cloneResult = .ok commit →
        (find_cookbook_roots env.tree 6).isEmpty = false →
        (process_repo url outDir false false env).1.cookbooks =
            some (((find_cookbook_roots env.tree 6).map
              (dispatchUnit outDir url commit false false env)).map (·.1)) ∧
          (((find_cookbook_roots env.tree 6).map
              (dispatchUnit outDir url commit false false env)).map (·.1.cookbook)) =
            (find_cookbook_roots env.tree 6).map posixOf) := by
  have hfail : (extract_cookbook (env.extractProc (posixOf root))).1 = false := by
    unfold extract_cookbook
    rw [if_pos hrc]
  have hd := dispatch_extract outDir url commit env root hex
  refine ⟨?_, ?_, ?_, ?_⟩
  · rw [hd]
    dsimp only
    rw [hfail]
    rfl
  · rw [hd]
    dsimp only
    exact List.length_take_le 4000 _
  · intro o e
    refine ⟨rfl, ?_⟩
    unfold extract_cookbook
    rw [if_pos (by unfold runModel; dsimp only; decide)]
  · intro hclone hroots
    refine ⟨?_, ?_⟩
    · rw [process_repo_done url outDir false false env commit hclone hroots]
    · rw [List.map_map]
      refine List.map_congr_left fun r _ => ?_
      exact dispatch_cookbook outDir url commit false false env r

/-- Witness for the C7 theorem: a failing extractor (exit status one) on
the one-cookbook environment yields extract_error with bounded detail, a
concrete timed-out invocation surfaces as 124 and failure, and the
cookbook list keeps its shape. -/
theorem c7_extract_error_witness :
    (dispatchUnit [] "u".toList "c0".toList false false c7Env
        ["a".toList]).1.status = .extract_error ∧
      ((dispatchUnit [] "u".toList "c0".toList false false c7Env
          ["a".toList]).1.detail.getD []).length ≤ 4000 ∧
      ((runModel (.timedOut "x".toList [])).1 = 124 ∧
        (extract_cookbook (.timedOut "x".toList [])).1 = false) ∧
      (process_repo "u".toList [] false false c7Env).1.cookbooks =
        some (((find_cookbook_roots c7Env.tree 6).map
          (dispatchUnit [] "u".toList "c0".toList false false c7Env)).map (·.1)) := by
  have h := c7_extract_error [] "u".toList "c0".toList c7Env ["a".toList] rfl (by decide)
  exact ⟨h.1, h.2.1, h.2.2.1 "x".toList [], (h.2.2.2 rfl (by decide)).1⟩

/-- Witness for the C1 theorem over the three-URL batch covering the done,
fatal_error and clone_error cases. -/
theorem c1_one_record_per_repo_witness :
    ((runBatch c1EnvOf [] false false c1Urls).1 ++
        (runBatch c1EnvOf [] false false c1Urls).2).Perm
        (c1Urls.map (work c1EnvOf [] false false)) ∧
      (runBatch c1EnvOf [] false false c1Urls).1.length +
          (runBatch c1EnvOf [] false false c1Urls).2.length = c1Urls.length ∧
      (work c1EnvOf [] false false "bad".toList ∈ (runBatch c1EnvOf [] false false c1Urls).1 ↔
        ((work c1EnvOf [] false false "bad".toList).status = .clone_error ∨
          (work c1EnvOf [] false false "bad".toList).status = .fatal_error)) ∧
      (work c1EnvOf [] false false "good".toList ∈ (runBatch c1EnvOf [] false false c1Urls).2 ↔
        ¬((work c1EnvOf [] false false "good".toList).status = .clone_error ∨
          (work c1EnvOf [] false false "good".toList).status = .fatal_error)) ∧
      ((work c1EnvOf [] false false "cerr".toList).status = .done ∨
        (work c1EnvOf [] false false "cerr".toList).status = .no_cookbooks ∨
        (work c1EnvOf [] false false "cerr".toList).status = .clone_error ∨
        (work c1EnvOf [] false false "cerr".toList).status = .fatal_error) := by
  have h := c1_one_record_per_repo c1EnvOf [] false false c1Urls
  exact ⟨h.1, h.2.1, h.2.2.1 _ (by decide), h.2.2.2.1 _ (by decide), h.2.2.2.2 _ (by decide)⟩
